import Mathlib

/-!
Verification of the object-list page of an S3 terminal client
(`src/pages/object_list.rs`): the display-width text wrapper, the
filter/sort projection over the master item list, and the modal
view-state machine with its dialog transitions.

Strings are modelled as lists of characters (`Str`).  The display width
of a glyph is an arbitrary function `wf : Char → Nat`; theorems about
the wrapper are proved for every such function, and a concrete table
`uwWidth` (modelling the external unicode-width crate) is used for
concrete evaluations.
-/

/-- Strings as lists of characters. -/
abbrev Str := List Char

/-- Display width of a string: sum of per-glyph widths
(models `unicode_width::UnicodeWidthStr::width`, which sums the
per-character widths). -/
def strWidth (wf : Char → Nat) (s : Str) : Nat :=
  (s.map wf).sum

/-- Modelled from the spec: per-glyph display width of the external
unicode-width crate (`UnicodeWidthChar::width(ch).unwrap_or(0)`),
simplified table: control characters have width 0, CJK unified
ideographs width 2, everything else width 1.  All theorems about the
wrapper are parametric in the width function; this table is used only
to evaluate concrete examples (ASCII and CJK characters, where it
agrees with the crate). -/
def uwWidth (c : Char) : Nat :=
  if c.toNat < 0x20 then 0
  else if 0x4E00 ≤ c.toNat ∧ c.toNat ≤ 0x9FFF then 2
  else 1

/-- Loop of `wrap_strict_by_char_width` (src/pages/object_list.rs):
state is the accumulated lines, the current line `cur`, and its running
display width `count`; one step per input character. -/
def wrapStrictGo (wf : Char → Nat) (maxWidth : Nat) :
    List Str → Str → Nat → List Char → List Str
  | lines, cur, _count, [] => if cur = [] then lines else lines ++ [cur]
  | lines, cur, count, ch :: rest =>
    let w := wf ch
    if maxWidth < count + w then
      if cur = [] then wrapStrictGo wf maxWidth lines [ch] w rest
      else wrapStrictGo wf maxWidth (lines ++ [cur]) [ch] w rest
    else wrapStrictGo wf maxWidth lines (cur ++ [ch]) (count + w) rest

/-- `wrap_strict_by_char_width`: strictly wrap by display width,
splitting exactly at the column limit without hyphenation. -/
def wrapStrictByCharWidth (wf : Char → Nat) (s : Str) (maxWidth : Nat) : List Str :=
  wrapStrictGo wf maxWidth [] [] 0 s

/-- Loop of `split_by_display_width`: take characters while the running
width stays within the limit. -/
def splitByDisplayWidthGo (wf : Char → Nat) (maxWidth : Nat) :
    Nat → List Char → Str × Str
  | _curW, [] => ([], [])
  | curW, ch :: rest =>
    let w := wf ch
    if maxWidth < curW + w then ([], ch :: rest)
    else
      let p := splitByDisplayWidthGo wf maxWidth (curW + w) rest
      (ch :: p.1, p.2)

/-- `split_by_display_width`: split a string into `(pre, suf)` where the
display width of `pre` does not exceed `max_width`; when `max_width = 0`
the whole string is returned as the suffix. -/
def splitByDisplayWidth (wf : Char → Nat) (s : Str) (maxWidth : Nat) : Str × Str :=
  if maxWidth = 0 then ([], s)
  else splitByDisplayWidthGo wf maxWidth 0 s

/-- `append_wrapped_chunks` (helper inside `wrap_path_with_prefix` in the
source): wrap `textToWrap` strictly, append all chunks but the last to
`lines`, and leave the last chunk as the new current line.  If there are
no chunks, `lines` and `cur` are unchanged. -/
def appendWrappedChunks (wf : Char → Nat) (lines : List Str) (cur : Str)
    (textToWrap : Str) (maxWidth : Nat) : List Str × Str :=
  let chunks := wrapStrictByCharWidth wf textToWrap maxWidth
  if chunks = [] then (lines, cur)
  else (lines ++ chunks.dropLast, chunks.getLastD [])

/-- One step of the segment loop of `wrap_path_with_prefix`
(src/pages/object_list.rs): processes the enumerated segment `(i, seg)`
of the part after the scheme prefix, updating `(lines, cur)`. -/
def wrapSegStep (wf : Char → Nat) (maxWidth : Nat) (pfx : Str)
    (acc : List Str × Str) (ie : Nat × Str) : List Str × Str :=
  let lines := acc.1
  let cur := acc.2
  let i := ie.1
  let seg := ie.2
  if seg = [] then acc
  else
    let toAppend := if i = 0 then seg else '/' :: seg
    if strWidth wf cur + strWidth wf toAppend ≤ maxWidth then
      (lines, cur ++ toAppend)
    else if i = 0 ∧ cur = pfx then
      let curW := strWidth wf cur
      let remain := maxWidth - curW
      if remain = 0 then
        appendWrappedChunks wf (lines ++ [cur]) [] seg maxWidth
      else
        let ht := splitByDisplayWidth wf seg remain
        let lines' := lines ++ [cur ++ ht.1]
        if ht.2 = [] then (lines', [])
        else appendWrappedChunks wf lines' [] ht.2 maxWidth
    else
      let lines' := if cur = [] then lines else lines ++ [cur]
      appendWrappedChunks wf lines' [] toAppend maxWidth

/-- `wrap_path_with_prefix`: wrap an S3 path beginning with the ASCII
scheme prefix `pfx`, keeping '/'-delimited segments intact when they
fit and skipping empty segments.  (The source slices off the prefix by
byte length; since the prefix is ASCII this equals dropping
`pfx.length` characters.) -/
def wrapPathWithPfx (wf : Char → Nat) (s : Str) (pfx : Str) (maxWidth : Nat) : List Str :=
  let rest := s.drop pfx.length
  let r := ((rest.splitOn '/').enum).foldl (wrapSegStep wf maxWidth pfx) ([], pfx)
  if r.2 = [] then r.1 else r.1 ++ [r.2]

/-- The "s3://" scheme prefix. -/
def s3Pfx : Str := "s3://".toList

/-- `wrap_s3_path_for_dialog`: return the string as a single line when
it already fits, otherwise wrap with segment awareness when it starts
with "s3://", or strictly per glyph otherwise. -/
def wrapS3PathForDialog (wf : Char → Nat) (s : Str) (maxWidth : Nat) : List Str :=
  if strWidth wf s ≤ maxWidth then [s]
  else if s3Pfx.isPrefixOf s then wrapPathWithPfx wf s s3Pfx maxWidth
  else wrapStrictByCharWidth wf s maxWidth

-- ### Basic properties of the strict wrapper and the splitter

theorem strWidth_append (wf : Char → Nat) (a b : Str) :
    strWidth wf (a ++ b) = strWidth wf a + strWidth wf b := by
  simp [strWidth]

theorem wrapStrictGo_flatten (wf : Char → Nat) (m : Nat) :
    ∀ (s : List Char) (lines : List Str) (cur : Str) (count : Nat),
      (wrapStrictGo wf m lines cur count s).flatten = lines.flatten ++ cur ++ s := by
  intro s
  induction s with
  | nil =>
    intro lines cur count
    by_cases h : cur = [] <;> simp [wrapStrictGo, h]
  | cons ch rest ih =>
    intro lines cur count
    simp only [wrapStrictGo]
    by_cases h1 : m < count + wf ch
    · by_cases h2 : cur = []
      · simp [h1, h2, ih]
      · simp [h1, h2, ih]
    · simp [h1, ih]

/-- Concatenating the strictly wrapped lines restores the string. -/
theorem wrapStrict_flatten (wf : Char → Nat) (s : Str) (m : Nat) :
    (wrapStrictByCharWidth wf s m).flatten = s := by
  simp [wrapStrictByCharWidth, wrapStrictGo_flatten]

theorem wrapStrictGo_width (wf : Char → Nat) (m : Nat) :
    ∀ (s : List Char) (lines : List Str) (cur : Str) (count : Nat),
      (∀ c ∈ s, wf c ≤ m) →
      strWidth wf cur = count → count ≤ m →
      (∀ l ∈ lines, strWidth wf l ≤ m) →
      ∀ l ∈ wrapStrictGo wf m lines cur count s, strWidth wf l ≤ m := by
  intro s
  induction s with
  | nil =>
    intro lines cur count _ hcw hcle hlines l hl
    by_cases h : cur = []
    · simp [wrapStrictGo, h] at hl
      exact hlines l hl
    · simp [wrapStrictGo, h] at hl
      rcases hl with hl | hl
      · exact hlines l hl
      · subst hl; omega
  | cons ch rest ih =>
    intro lines cur count hs hcw hcle hlines l hl
    have hch : wf ch ≤ m := hs ch (by simp)
    have hrest : ∀ c ∈ rest, wf c ≤ m := fun c hc => hs c (by simp [hc])
    simp only [wrapStrictGo] at hl
    by_cases h1 : m < count + wf ch
    · by_cases h2 : cur = []
      · simp only [h1, if_pos, h2, if_pos] at hl
        exact ih lines [ch] (wf ch) hrest (by simp [strWidth]) hch hlines l hl
      · simp only [h1, if_pos, h2, if_neg, ite_false] at hl
        refine ih (lines ++ [cur]) [ch] (wf ch) hrest (by simp [strWidth]) hch ?_ l hl
        intro l' hl'
        simp at hl'
        rcases hl' with hl' | hl'
        · exact hlines l' hl'
        · subst hl'; omega
    · simp only [h1, if_neg, ite_false, not_false_eq_true] at hl
      refine ih lines (cur ++ [ch]) (count + wf ch) hrest ?_ (by omega) hlines l hl
      rw [strWidth_append, hcw]
      simp [strWidth]

/-- Every strictly wrapped line fits within the limit, provided every
glyph does. -/
theorem wrapStrict_width (wf : Char → Nat) (s : Str) (m : Nat)
    (hs : ∀ c ∈ s, wf c ≤ m) :
    ∀ l ∈ wrapStrictByCharWidth wf s m, strWidth wf l ≤ m := by
  exact wrapStrictGo_width wf m s [] [] 0 hs (by simp [strWidth]) (by omega) (by simp)

theorem wrapStrictGo_ne_nil (wf : Char → Nat) (m : Nat) :
    ∀ (s : List Char) (lines : List Str) (cur : Str) (count : Nat),
      (∀ l ∈ lines, l ≠ []) →
      ∀ l ∈ wrapStrictGo wf m lines cur count s, l ≠ [] := by
  intro s
  induction s with
  | nil =>
    intro lines cur count hlines l hl
    by_cases h : cur = []
    · simp [wrapStrictGo, h] at hl
      exact hlines l hl
    · simp [wrapStrictGo, h] at hl
      rcases hl with hl | hl
      · exact hlines l hl
      · subst hl; exact h
  | cons ch rest ih =>
    intro lines cur count hlines l hl
    simp only [wrapStrictGo] at hl
    by_cases h1 : m < count + wf ch
    · by_cases h2 : cur = []
      · simp only [h1, if_pos, h2, if_pos] at hl
        exact ih lines [ch] (wf ch) hlines l hl
      · simp only [h1, if_pos, h2, if_neg, ite_false] at hl
        refine ih (lines ++ [cur]) [ch] (wf ch) ?_ l hl
        intro l' hl'
        simp at hl'
        rcases hl' with hl' | hl'
        · exact hlines l' hl'
        · subst hl'; exact h2
    · simp only [h1, if_neg, ite_false, not_false_eq_true] at hl
      exact ih lines (cur ++ [ch]) (count + wf ch) hlines l hl

/-- The strict wrapper never produces an empty line. -/
theorem wrapStrict_ne_nil (wf : Char → Nat) (s : Str) (m : Nat) :
    ∀ l ∈ wrapStrictByCharWidth wf s m, l ≠ [] :=
  wrapStrictGo_ne_nil wf m s [] [] 0 (by simp)

theorem splitByDisplayWidthGo_append (wf : Char → Nat) (m : Nat) :
    ∀ (s : List Char) (curW : Nat),
      (splitByDisplayWidthGo wf m curW s).1 ++ (splitByDisplayWidthGo wf m curW s).2 = s := by
  intro s
  induction s with
  | nil => intro curW; simp [splitByDisplayWidthGo]
  | cons ch rest ih =>
    intro curW
    simp only [splitByDisplayWidthGo]
    by_cases h : m < curW + wf ch
    · simp [h]
    · simp [h, ih]

theorem splitByDisplayWidthGo_width (wf : Char → Nat) (m : Nat) :
    ∀ (s : List Char) (curW : Nat),
      curW + strWidth wf (splitByDisplayWidthGo wf m curW s).1 ≤ max curW m := by
  intro s
  induction s with
  | nil => intro curW; simp [splitByDisplayWidthGo, strWidth]
  | cons ch rest ih =>
    intro curW
    simp only [splitByDisplayWidthGo]
    by_cases h : m < curW + wf ch
    · simp [h, strWidth]
    · simp only [h, if_neg, ite_false, not_false_eq_true]
      have := ih (curW + wf ch)
      simp only [strWidth, List.map_cons, List.sum_cons] at *
      omega

/-- `split_by_display_width` splits the string exactly. -/
theorem splitByDisplayWidth_append (wf : Char → Nat) (s : Str) (m : Nat) :
    (splitByDisplayWidth wf s m).1 ++ (splitByDisplayWidth wf s m).2 = s := by
  by_cases h : m = 0
  · simp [splitByDisplayWidth, h]
  · simp [splitByDisplayWidth, h, splitByDisplayWidthGo_append]

/-- The first component of `split_by_display_width` fits the limit. -/
theorem splitByDisplayWidth_width (wf : Char → Nat) (s : Str) (m : Nat) :
    strWidth wf (splitByDisplayWidth wf s m).1 ≤ m := by
  by_cases h : m = 0
  · simp [splitByDisplayWidth, h, strWidth]
  · have := splitByDisplayWidthGo_width wf m s 0
    simp only [splitByDisplayWidth, h, if_neg, ite_false, not_false_eq_true]
    omega

-- ### Properties of append_wrapped_chunks and the segment loop

theorem flatten_dropLast_getLastD (l : List (List Char)) (h : l ≠ []) :
    l.dropLast.flatten ++ l.getLastD [] = l.flatten := by
  conv_rhs => rw [← List.dropLast_append_getLast h]
  rw [List.flatten_append, List.getLastD_eq_getLast?, List.getLast?_eq_getLast l h]
  simp

theorem appendWrappedChunks_flatten (wf : Char → Nat) (lines : List Str) (t : Str) (m : Nat) :
    (appendWrappedChunks wf lines [] t m).1.flatten ++ (appendWrappedChunks wf lines [] t m).2
      = lines.flatten ++ t := by
  unfold appendWrappedChunks
  by_cases h : wrapStrictByCharWidth wf t m = []
  · have ht : t = [] := by
      have := wrapStrict_flatten wf t m
      rw [h] at this
      simpa using this.symm
    subst ht
    simp [h]
  · simp only [h, if_neg, ite_false, not_false_eq_true]
    rw [List.flatten_append, List.append_assoc, flatten_dropLast_getLastD _ h,
      wrapStrict_flatten]

theorem appendWrappedChunks_width (wf : Char → Nat) (lines : List Str) (t : Str) (m : Nat)
    (hlines : ∀ l ∈ lines, strWidth wf l ≤ m) (ht : ∀ c ∈ t, wf c ≤ m) :
    (∀ l ∈ (appendWrappedChunks wf lines [] t m).1, strWidth wf l ≤ m) ∧
      strWidth wf (appendWrappedChunks wf lines [] t m).2 ≤ m := by
  unfold appendWrappedChunks
  have hch := wrapStrict_width wf t m ht
  by_cases h : wrapStrictByCharWidth wf t m = []
  · simp only [h, if_pos]
    exact ⟨hlines, by simp [strWidth]⟩
  · simp only [h, if_neg, ite_false, not_false_eq_true]
    constructor
    · intro l hl
      simp at hl
      rcases hl with hl | hl
      · exact hlines l hl
      · exact hch l ((List.dropLast_sublist _).mem hl)
    · rw [List.getLastD_eq_getLast?, List.getLast?_eq_getLast _ h]
      exact hch _ (List.getLast_mem h)

theorem finalize_flatten (L : List Str) (c : Str) :
    (if c = [] then L else L ++ [c]).flatten = L.flatten ++ c := by
  by_cases h : c = [] <;> simp [h]

theorem foldSeg_flatten (wf : Char → Nat) (m : Nat) (pfx : Str) :
    ∀ (segs : List Str) (n : Nat) (lines : List Str) (cur : Str),
      (∀ sg ∈ segs, sg ≠ []) →
      ((List.enumFrom (n + 1) segs).foldl (wrapSegStep wf m pfx) (lines, cur)).1.flatten ++
          ((List.enumFrom (n + 1) segs).foldl (wrapSegStep wf m pfx) (lines, cur)).2
        = lines.flatten ++ cur ++ (segs.map (fun sg => '/' :: sg)).flatten := by
  intro segs
  induction segs with
  | nil => intro n lines cur _; simp
  | cons sg segs ih =>
    intro n lines cur hne
    have hsg : sg ≠ [] := hne sg (by simp)
    have hrest : ∀ x ∈ segs, x ≠ [] := fun x hx => hne x (by simp [hx])
    rw [List.enumFrom_cons, List.foldl_cons]
    have hstep :
        (wrapSegStep wf m pfx (lines, cur) (n + 1, sg)).1.flatten ++
            (wrapSegStep wf m pfx (lines, cur) (n + 1, sg)).2
          = lines.flatten ++ cur ++ ('/' :: sg) := by
      unfold wrapSegStep
      simp only [hsg, if_neg, ite_false, not_false_eq_true]
      have hi0 : ¬(n + 1 = 0) := by omega
      simp only [hi0, if_neg, ite_false, not_false_eq_true, false_and]
      by_cases hfit : strWidth wf cur + strWidth wf ('/' :: sg) ≤ m
      · simp [hfit]
      · simp only [hfit, if_neg, ite_false, not_false_eq_true]
        by_cases hc : cur = []
        · simp only [hc, if_pos]
          rw [appendWrappedChunks_flatten]
          simp [hc]
        · simp only [hc, if_neg, ite_false, not_false_eq_true]
          rw [appendWrappedChunks_flatten]
          simp
    rcases hw : wrapSegStep wf m pfx (lines, cur) (n + 1, sg) with ⟨lines1, cur1⟩
    rw [hw] at hstep
    have := ih (n + 1) lines1 cur1 hrest
    rw [this]
    simp only [List.map_cons, List.flatten_cons] at *
    rw [hstep]
    simp

theorem foldSeg_width (wf : Char → Nat) (m : Nat) (pfx : Str) :
    ∀ (segs : List Str) (n : Nat) (lines : List Str) (cur : Str),
      (∀ sg ∈ segs, ∀ c ∈ sg, wf c ≤ m) → wf '/' ≤ m →
      (∀ l ∈ lines, strWidth wf l ≤ m) → strWidth wf cur ≤ m →
      (∀ l ∈ ((List.enumFrom (n + 1) segs).foldl (wrapSegStep wf m pfx) (lines, cur)).1,
          strWidth wf l ≤ m) ∧
        strWidth wf ((List.enumFrom (n + 1) segs).foldl (wrapSegStep wf m pfx) (lines, cur)).2 ≤ m := by
  intro segs
  induction segs with
  | nil => intro n lines cur _ _ hlines hcur; exact ⟨hlines, hcur⟩
  | cons sg segs ih =>
    intro n lines cur hchars hslash hlines hcur
    have hsgch : ∀ c ∈ sg, wf c ≤ m := hchars sg (by simp)
    have hrest : ∀ x ∈ segs, ∀ c ∈ x, wf c ≤ m := fun x hx => hchars x (by simp [hx])
    rw [List.enumFrom_cons, List.foldl_cons]
    have hstep :
        (∀ l ∈ (wrapSegStep wf m pfx (lines, cur) (n + 1, sg)).1, strWidth wf l ≤ m) ∧
          strWidth wf (wrapSegStep wf m pfx (lines, cur) (n + 1, sg)).2 ≤ m := by
      unfold wrapSegStep
      by_cases hsgnil : sg = []
      · simp only [hsgnil, if_pos]
        exact ⟨hlines, hcur⟩
      · simp only [hsgnil, if_neg, ite_false, not_false_eq_true]
        have hi0 : ¬(n + 1 = 0) := by omega
        simp only [hi0, if_neg, ite_false, not_false_eq_true, false_and]
        by_cases hfit : strWidth wf cur + strWidth wf ('/' :: sg) ≤ m
        · simp only [hfit, if_pos]
          exact ⟨hlines, by rw [strWidth_append]; exact hfit⟩
        · simp only [hfit, if_neg, ite_false, not_false_eq_true]
          have hslashsg : ∀ c ∈ '/' :: sg, wf c ≤ m := by
            intro c hc
            rcases List.mem_cons.mp hc with rfl | hc
            · exact hslash
            · exact hsgch c hc
          by_cases hc : cur = []
          · simp only [hc, if_pos]
            exact appendWrappedChunks_width wf lines ('/' :: sg) m hlines hslashsg
          · simp only [hc, if_neg, ite_false, not_false_eq_true]
            refine appendWrappedChunks_width wf (lines ++ [cur]) ('/' :: sg) m ?_ hslashsg
            intro l hl
            simp at hl
            rcases hl with hl | hl
            · exact hlines l hl
            · subst hl; exact hcur
    rcases hw : wrapSegStep wf m pfx (lines, cur) (n + 1, sg) with ⟨lines1, cur1⟩
    rw [hw] at hstep
    exact ih (n + 1) lines1 cur1 hrest hslash hstep.1 hstep.2

theorem headStep_flatten (wf : Char → Nat) (m : Nat) (pfx : Str) (sg0 : Str) (hsg : sg0 ≠ []) :
    (wrapSegStep wf m pfx ([], pfx) (0, sg0)).1.flatten ++
        (wrapSegStep wf m pfx ([], pfx) (0, sg0)).2
      = pfx ++ sg0 := by
  unfold wrapSegStep
  simp only [hsg, if_neg, ite_false, not_false_eq_true, if_pos, and_self]
  by_cases hfit : strWidth wf pfx + strWidth wf sg0 ≤ m
  · simp [hfit]
  · simp only [hfit, if_neg, ite_false, not_false_eq_true, true_and]
    by_cases hrem : m - strWidth wf pfx = 0
    · simp only [hrem, if_pos]
      rw [appendWrappedChunks_flatten]
      simp
    · simp only [hrem, if_neg, ite_false, not_false_eq_true]
      have hsplit := splitByDisplayWidth_append wf sg0 (m - strWidth wf pfx)
      by_cases ht2 : (splitByDisplayWidth wf sg0 (m - strWidth wf pfx)).2 = []
      · simp only [ht2, if_pos]
        rw [ht2, List.append_nil] at hsplit
        simp [hsplit]
      · simp only [ht2, if_neg, ite_false, not_false_eq_true]
        rw [appendWrappedChunks_flatten]
        simp [hsplit]

theorem headStep_width (wf : Char → Nat) (m : Nat) (pfx : Str) (sg0 : Str)
    (hpfxw : strWidth wf pfx ≤ m) (hsg0 : ∀ c ∈ sg0, wf c ≤ m) :
    (∀ l ∈ (wrapSegStep wf m pfx ([], pfx) (0, sg0)).1, strWidth wf l ≤ m) ∧
      strWidth wf (wrapSegStep wf m pfx ([], pfx) (0, sg0)).2 ≤ m := by
  unfold wrapSegStep
  by_cases hsg : sg0 = []
  · simp only [hsg, if_pos]
    exact ⟨by simp, hpfxw⟩
  · simp only [hsg, if_neg, ite_false, not_false_eq_true, if_pos, and_self]
    by_cases hfit : strWidth wf pfx + strWidth wf sg0 ≤ m
    · simp only [hfit, if_pos]
      exact ⟨by simp, by rw [strWidth_append]; exact hfit⟩
    · simp only [hfit, if_neg, ite_false, not_false_eq_true, true_and]
      by_cases hrem : m - strWidth wf pfx = 0
      · simp only [hrem, if_pos]
        refine appendWrappedChunks_width wf [pfx] sg0 m ?_ hsg0
        intro l hl
        simp at hl
        subst hl
        exact hpfxw
      · simp only [hrem, if_neg, ite_false, not_false_eq_true]
        have hheadw := splitByDisplayWidth_width wf sg0 (m - strWidth wf pfx)
        have hlinew :
            strWidth wf (pfx ++ (splitByDisplayWidth wf sg0 (m - strWidth wf pfx)).1) ≤ m := by
          rw [strWidth_append]
          omega
        have hsplit := splitByDisplayWidth_append wf sg0 (m - strWidth wf pfx)
        by_cases ht2 : (splitByDisplayWidth wf sg0 (m - strWidth wf pfx)).2 = []
        · simp only [ht2, if_pos]
          refine ⟨?_, by simp [strWidth]⟩
          intro l hl
          simp at hl
          subst hl
          exact hlinew
        · simp only [ht2, if_neg, ite_false, not_false_eq_true]
          refine appendWrappedChunks_width wf _ _ m ?_ ?_
          · intro l hl
            simp at hl
            subst hl
            exact hlinew
          · intro c hc
            refine hsg0 c ?_
            rw [← hsplit]
            exact List.mem_append_right _ hc

theorem intercalate_cons_flatten (x : Char) (t : List Str) :
    ∀ (a : Str),
      List.intercalate [x] (a :: t) = a ++ (t.map (fun sg => x :: sg)).flatten := by
  induction t with
  | nil => intro a; simp [List.intercalate]
  | cons b t ih =>
    intro a
    have h1 : List.intercalate [x] (a :: b :: t) = a ++ [x] ++ List.intercalate [x] (b :: t) := by
      simp [List.intercalate, List.intersperse_cons_cons]
    rw [h1, ih b]
    simp

theorem mem_intercalate_of_mem (x : Char) :
    ∀ (segs : List Str) (sg : Str) (c : Char),
      sg ∈ segs → c ∈ sg → c ∈ List.intercalate [x] segs := by
  intro segs
  induction segs with
  | nil => intro sg c hsg _; simp at hsg
  | cons a t ih =>
    intro sg c hsg hc
    rw [intercalate_cons_flatten]
    rcases List.mem_cons.mp hsg with rfl | hsg
    · exact List.mem_append_left _ hc
    · refine List.mem_append_right _ ?_
      rw [List.mem_flatten]
      exact ⟨x :: sg, List.mem_map_of_mem _ hsg, by simp [hc]⟩

theorem mem_of_mem_splitOn {x : Char} {l sg : Str} {c : Char}
    (hsg : sg ∈ l.splitOn x) (hc : c ∈ sg) : c ∈ l := by
  have h := List.intercalate_splitOn l x
  rw [← h]
  exact mem_intercalate_of_mem x (l.splitOn x) sg c hsg hc

theorem splitOn_ne_nil (x : Char) (l : Str) : l.splitOn x ≠ [] := by
  intro h
  have hrec := List.intercalate_splitOn l x
  rw [h] at hrec
  simp [List.intercalate] at hrec
  subst hrec
  simp at h

theorem finalize_width (wf : Char → Nat) (m : Nat) (L : List Str) (c : Str)
    (hL : ∀ l ∈ L, strWidth wf l ≤ m) (hc : strWidth wf c ≤ m) :
    ∀ l ∈ (if c = [] then L else L ++ [c]), strWidth wf l ≤ m := by
  intro l hl
  by_cases h : c = []
  · simp [h] at hl
    exact hL l hl
  · simp [h] at hl
    rcases hl with hl | hl
    · exact hL l hl
    · subst hl; exact hc

theorem pfx_append_drop {pfx s : Str} (hpre : pfx <+: s) :
    pfx ++ s.drop pfx.length = s := by
  have h := List.prefix_iff_eq_take.mp hpre
  conv_rhs => rw [← List.take_append_drop pfx.length s]
  rw [← h]

/-- Concatenating the lines of `wrap_path_with_prefix` restores the
string, provided no '/'-delimited segment after the prefix is empty. -/
theorem wrapPathWithPfx_flatten (wf : Char → Nat) (s pfx : Str) (m : Nat)
    (hpre : pfx <+: s)
    (hsegs : ∀ sg ∈ (s.drop pfx.length).splitOn '/', sg ≠ []) :
    (wrapPathWithPfx wf s pfx m).flatten = s := by
  simp only [wrapPathWithPfx]
  rcases hse : (s.drop pfx.length).splitOn '/' with _ | ⟨sg0, segs⟩
  · exact absurd hse (splitOn_ne_nil '/' _)
  · have hsg0 : sg0 ≠ [] := by
      refine hsegs sg0 ?_
      rw [hse]; simp
    have hrest : ∀ sg ∈ segs, sg ≠ [] := by
      intro sg hsg
      refine hsegs sg ?_
      rw [hse]; simp [hsg]
    have henum : (sg0 :: segs).enum = (0, sg0) :: List.enumFrom 1 segs := by
      simp [List.enum]
    rw [henum, List.foldl_cons]
    rcases hw : wrapSegStep wf m pfx ([], pfx) (0, sg0) with ⟨l1, c1⟩
    have hhead := headStep_flatten wf m pfx sg0 hsg0
    rw [hw] at hhead
    have hfold := foldSeg_flatten wf m pfx segs 0 l1 c1 hrest
    rw [finalize_flatten, hfold]
    have hint : List.intercalate ['/'] (sg0 :: segs)
        = sg0 ++ (segs.map (fun sg => '/' :: sg)).flatten := intercalate_cons_flatten '/' segs sg0
    have hrec : List.intercalate ['/'] (sg0 :: segs) = s.drop pfx.length := by
      rw [← hse]
      exact List.intercalate_splitOn _ '/'
    dsimp only at hhead
    rw [hhead, List.append_assoc, ← hint, hrec]
    exact pfx_append_drop hpre

/-- Every line of `wrap_path_with_prefix` fits the limit, provided every
glyph of the string fits and the prefix itself fits. -/
theorem wrapPathWithPfx_width (wf : Char → Nat) (s pfx : Str) (m : Nat)
    (_hpre : pfx <+: s)
    (hchars : ∀ c ∈ s, wf c ≤ m) (hpfxw : strWidth wf pfx ≤ m) :
    ∀ l ∈ wrapPathWithPfx wf s pfx m, strWidth wf l ≤ m := by
  simp only [wrapPathWithPfx]
  have hdropch : ∀ c ∈ s.drop pfx.length, wf c ≤ m := fun c hc =>
    hchars c (List.drop_subset _ _ hc)
  have hsegch : ∀ sg ∈ (s.drop pfx.length).splitOn '/', ∀ c ∈ sg, wf c ≤ m := by
    intro sg hsg c hc
    exact hdropch c (mem_of_mem_splitOn hsg hc)
  rcases hse : (s.drop pfx.length).splitOn '/' with _ | ⟨sg0, segs⟩
  · exact absurd hse (splitOn_ne_nil '/' _)
  · have hsg0ch : ∀ c ∈ sg0, wf c ≤ m := by
      refine hsegch sg0 ?_
      rw [hse]; simp
    have hrestch : ∀ sg ∈ segs, ∀ c ∈ sg, wf c ≤ m := by
      intro sg hsg
      refine hsegch sg ?_
      rw [hse]; simp [hsg]
    have henum : (sg0 :: segs).enum = (0, sg0) :: List.enumFrom 1 segs := by
      simp [List.enum]
    rw [henum, List.foldl_cons]
    rcases hw : wrapSegStep wf m pfx ([], pfx) (0, sg0) with ⟨l1, c1⟩
    have hhead := headStep_width wf m pfx sg0 hpfxw hsg0ch
    rw [hw] at hhead
    rcases segs with _ | ⟨sg1, segs'⟩
    · simp only [List.enumFrom_nil, List.foldl_nil]
      exact finalize_width wf m l1 c1 hhead.1 hhead.2
    · have hslash : wf '/' ≤ m := by
        refine hdropch '/' ?_
        have : '/' ∈ List.intercalate ['/'] (sg0 :: sg1 :: segs') := by
          rw [intercalate_cons_flatten]
          refine List.mem_append_right _ ?_
          rw [List.mem_flatten]
          exact ⟨'/' :: sg1, by simp, by simp⟩
        rw [← List.intercalate_splitOn (s.drop pfx.length) '/', hse]
        exact this
      have hfold := foldSeg_width wf m pfx (sg1 :: segs') 0 l1 c1 hrestch hslash hhead.1 hhead.2
      exact finalize_width wf m _ _ hfold.1 hfold.2

-- ### Data model of the object-list page

/-- `ObjectItem` (object.rs, not under src/; variants and fields as used
by src/pages/object_list.rs and described by the spec §3): a Directory
carries a name and identifying path fields; a File additionally carries
byte size, last-modified timestamp and storage identifiers.  Timestamps
are modelled as integers (`DateTime` is totally ordered). -/
inductive ObjectItem where
  | dir (name key s3_uri object_url : Str)
  | file (name : Str) (size_byte : Nat) (last_modified : Int)
      (key s3_uri arn object_url e_tag : Str)
deriving DecidableEq

def ObjectItem.name : ObjectItem → Str
  | .dir n _ _ _ => n
  | .file n _ _ _ _ _ _ _ => n

/-- `size_byte()`: `None` for a directory (directories carry no size). -/
def ObjectItem.size_byte : ObjectItem → Option Nat
  | .dir _ _ _ _ => none
  | .file _ sz _ _ _ _ _ _ => some sz

/-- `last_modified()`: `None` for a directory. -/
def ObjectItem.last_modified : ObjectItem → Option Int
  | .dir _ _ _ _ => none
  | .file _ _ lm _ _ _ _ _ => some lm

/-- `ObjectKey` (object.rs): bucket name plus ordered path segments. -/
structure ObjectKey where
  bucket_name : Str
  object_path : List Str
deriving DecidableEq

/-- Modelled from the spec: `ObjectKey::with_prefix` (object.rs, not
under src/) builds a key from a bucket and a path string; the path is
split into segments on '/'. -/
def objectKeyFromPath (bucket : Str) (path : Str) : ObjectKey :=
  ⟨bucket, path.splitOn '/'⟩

/-- Modelled from the spec: `joined_object_path(false)` (object.rs, not
under src/) joins the path segments with '/'. -/
def joinedObjectPath (k : ObjectKey) : Str :=
  List.intercalate ['/'] k.object_path

/-- `DownloadObjectInfo` (object.rs): one enumerated object queued for
download — key plus size (spec §3). -/
structure DownloadObjectInfo where
  key : Str
  size_byte : Nat
deriving DecidableEq

/-- `PasteSpec` (event.rs, not under src/): source and destination of a
single server-side copy, fields as used by
`build_paste_confirm_message_lines`. -/
structure PasteSpec where
  src_bucket : Str
  src_key : Str
  dst_bucket : Str
  dst_key : Str
deriving DecidableEq

/-- Modelled from the spec: a raw key event is forwarded verbatim to the
buffer editor of a text-entry dialog (§6), so it is modelled as its
effect on the input buffer. -/
abbrev KeyEvent := Str → Str

/-- Modelled from the spec: `InputDialogState` (widget module, not under
src/): a text-input dialog's buffer; cursor position is not modelled. -/
structure InputDialogState where
  input : Str
deriving DecidableEq

def InputDialogState.handle_key_event (st : InputDialogState) (k : KeyEvent) : InputDialogState :=
  ⟨k st.input⟩

def InputDialogState.clear_input (_st : InputDialogState) : InputDialogState :=
  ⟨[]⟩

def InputDialogState.is_empty (st : InputDialogState) : Bool :=
  st.input.isEmpty

/-- Modelled from the spec: `ConfirmDialogState` (widget module, not
under src/): a two-position ok/cancel toggle; `toggle` flips it and the
default position is "cancel". -/
structure ConfirmDialogState where
  ok : Bool
deriving DecidableEq

def ConfirmDialogState.toggle (st : ConfirmDialogState) : ConfirmDialogState :=
  ⟨!st.ok⟩

def ConfirmDialogState.is_ok (st : ConfirmDialogState) : Bool :=
  st.ok

def ConfirmDialogState.default : ConfirmDialogState :=
  ⟨false⟩

/-- `ObjectListSortType` (widget module): the seven sort keys matched by
`sort_view_indices` in src/pages/object_list.rs. -/
inductive ObjectListSortType where
  | Default
  | NameAsc
  | NameDesc
  | LastModifiedAsc
  | LastModifiedDesc
  | SizeAsc
  | SizeDesc
deriving DecidableEq

/-- Modelled from the spec: successor in the sort picker's display order
(cycling). -/
def sortTypeNext : ObjectListSortType → ObjectListSortType
  | .Default => .NameAsc
  | .NameAsc => .NameDesc
  | .NameDesc => .LastModifiedAsc
  | .LastModifiedAsc => .LastModifiedDesc
  | .LastModifiedDesc => .SizeAsc
  | .SizeAsc => .SizeDesc
  | .SizeDesc => .Default

/-- Modelled from the spec: predecessor in the sort picker's display
order (cycling). -/
def sortTypePrev : ObjectListSortType → ObjectListSortType
  | .Default => .SizeDesc
  | .NameAsc => .Default
  | .NameDesc => .NameAsc
  | .LastModifiedAsc => .NameDesc
  | .LastModifiedDesc => .LastModifiedAsc
  | .SizeAsc => .LastModifiedDesc
  | .SizeDesc => .SizeAsc

/-- Modelled from the spec: `ObjectListSortDialogState` (widget module,
not under src/): the currently selected sort key; `reset` returns to the
default key. -/
structure ObjectListSortDialogState where
  selected : ObjectListSortType
deriving DecidableEq

def ObjectListSortDialogState.select_next (st : ObjectListSortDialogState) :
    ObjectListSortDialogState := ⟨sortTypeNext st.selected⟩

def ObjectListSortDialogState.select_prev (st : ObjectListSortDialogState) :
    ObjectListSortDialogState := ⟨sortTypePrev st.selected⟩

def ObjectListSortDialogState.reset (_st : ObjectListSortDialogState) :
    ObjectListSortDialogState := ⟨.Default⟩

/-- Modelled from the spec: the Scrollable List Cursor
(`ScrollListState`, widget module, not under src/): offset and selected
index over the projection (§3, §4.3); `new` places the cursor at the top
(selected = 0, offset = 0).  Movement is clamped; the viewport height
used for paging is supplied at render time and is not modelled beyond a
stored field. -/
structure ScrollListState where
  selected : Nat
  offset : Nat
  total : Nat
  height : Nat
deriving DecidableEq

def ScrollListState.new (total : Nat) : ScrollListState :=
  ⟨0, 0, total, 0⟩

def ScrollListState.select_next (st : ScrollListState) : ScrollListState :=
  if st.selected + 1 < st.total then { st with selected := st.selected + 1 } else st

def ScrollListState.select_prev (st : ScrollListState) : ScrollListState :=
  { st with selected := st.selected - 1 }

def ScrollListState.select_first (st : ScrollListState) : ScrollListState :=
  { st with selected := 0, offset := 0 }

def ScrollListState.select_last (st : ScrollListState) : ScrollListState :=
  { st with selected := st.total - 1 }

def ScrollListState.select_next_page (st : ScrollListState) : ScrollListState :=
  { st with selected := min (st.selected + st.height) (st.total - 1) }

def ScrollListState.select_prev_page (st : ScrollListState) : ScrollListState :=
  { st with selected := st.selected - st.height }

/-- Modelled from the spec: `CopyDetailDialogState` (widget module, not
under src/): the item whose details are shown and the selected row. -/
structure CopyDetailDialogState where
  item : ObjectItem
  selected : Nat
deriving DecidableEq

def CopyDetailDialogState.object_list_dir (it : ObjectItem) : CopyDetailDialogState :=
  ⟨it, 0⟩

def CopyDetailDialogState.object_list_file (it : ObjectItem) : CopyDetailDialogState :=
  ⟨it, 0⟩

def CopyDetailDialogState.select_next (st : CopyDetailDialogState) : CopyDetailDialogState :=
  { st with selected := st.selected + 1 }

def CopyDetailDialogState.select_prev (st : CopyDetailDialogState) : CopyDetailDialogState :=
  { st with selected := st.selected - 1 }

/-- Modelled from the spec: detail rows offered for copying (name/value
pairs derived from the item's identifiers). -/
def CopyDetailDialogState.rows (st : CopyDetailDialogState) : List (Str × Str) :=
  match st.item with
  | .dir _ key s3_uri object_url =>
      [("Key".toList, key), ("S3 URI".toList, s3_uri), ("Object URL".toList, object_url)]
  | .file _ _ _ key s3_uri arn object_url e_tag =>
      [("Key".toList, key), ("S3 URI".toList, s3_uri), ("ARN".toList, arn),
        ("Object URL".toList, object_url), ("ETag".toList, e_tag)]

def CopyDetailDialogState.selected_name_and_value (st : CopyDetailDialogState) : Str × Str :=
  st.rows.getD st.selected ([], [])

/-- `ViewState` (src/pages/object_list.rs): the single active modal and
its dialog-local payload. -/
inductive ViewState where
  | Default
  | FilterDialog
  | SortDialog
  | GoToPathDialog (state : InputDialogState)
  | CopyDetailDialog (state : CopyDetailDialogState)
  | DownloadConfirmDialog (objs : List DownloadObjectInfo) (state : ConfirmDialogState)
      (download_as : Bool)
  | SaveDialog (state : InputDialogState) (objs : Option (List DownloadObjectInfo))
  | PasteConfirmDialog (spec : PasteSpec) (state : ConfirmDialogState)
deriving DecidableEq

/-- `UserEvent` (keys.rs, not under src/): the abstract user events
matched by `handle_key` in src/pages/object_list.rs. -/
inductive UserEvent where
  | ObjectListSelect
  | ObjectListBack
  | ObjectListDown
  | ObjectListUp
  | ObjectListGoToTop
  | ObjectListGoToBottom
  | ObjectListPageDown
  | ObjectListPageUp
  | ObjectListRefresh
  | ObjectListBucketList
  | ObjectListManagementConsole
  | ObjectListFilter
  | ObjectListSort
  | ObjectListGoToPath
  | ObjectListCopyObject
  | ObjectListPasteObject
  | ObjectListCopyDetails
  | ObjectListDownloadObject
  | ObjectListDownloadObjectAs
  | ObjectListResetFilter
  | Help
  | Quit
  | InputDialogClose
  | InputDialogApply
  | SelectDialogClose
  | SelectDialogDown
  | SelectDialogUp
  | SelectDialogSelect
  | SelectDialogLeft
  | SelectDialogRight
deriving DecidableEq

/-- `AppEventType` (event.rs, not under src/): the outbound events sent
by the object-list page, with the payloads used at the send sites. -/
inductive AppEventType where
  | ObjectListMoveDown
  | ObjectListMoveUp
  | ObjectListRefresh
  | BackToBucketList
  | ObjectListOpenManagementConsole (key : ObjectKey)
  | CopyObject (key : ObjectKey) (item : ObjectItem)
  | StartPasteObject (dest : ObjectKey)
  | OpenHelp
  | GoToPath (key : ObjectKey)
  | CopyToClipboard (name value : Str)
  | StartLoadAllDownloadObjectList (key : ObjectKey) (download_as : Bool)
  | StartDownloadObject (key : ObjectKey) (name : Str) (size_byte : Nat) (save_as : Option Str)
  | DownloadObjects (bucket : Str) (key : ObjectKey) (dir : Str)
      (objs : List DownloadObjectInfo)
  | StartDownloadObjectAs (key : ObjectKey) (size_byte : Nat) (name : Str)
      (save_as : Option Str)
  | PasteObject (spec : PasteSpec)
deriving DecidableEq

/-- `ObjectListPage` (src/pages/object_list.rs): the page state.  The
event sender `tx` is modelled by returning the list of emitted events
from each operation. -/
structure ObjectListPage where
  object_items : List ObjectItem
  object_key : ObjectKey
  view_indices : List Nat
  view_state : ViewState
  list_state : ScrollListState
  filter_input_state : InputDialogState
  sort_dialog_state : ObjectListSortDialogState
deriving DecidableEq

/-- `ObjectListPage::new`: full identity projection, cursor at the top,
empty filter, default sort. -/
def ObjectListPage.new (object_items : List ObjectItem) (object_key : ObjectKey) :
    ObjectListPage :=
  { object_items := object_items
    object_key := object_key
    view_indices := List.range object_items.length
    view_state := .Default
    list_state := ScrollListState.new object_items.length
    filter_input_state := ⟨[]⟩
    sort_dialog_state := ⟨.Default⟩ }

/-- Rust `str::contains`: case-sensitive substring containment. -/
def containsStr (hay needle : Str) : Bool :=
  decide (needle <:+: hay)

/-- Rust `char::is_whitespace`: the Unicode White_Space property
(U+0009–U+000D, U+0020, U+0085, U+00A0, U+1680, U+2000–U+200A, U+2028,
U+2029, U+202F, U+205F, U+3000). -/
def isRustWhitespace (c : Char) : Bool :=
  decide ((0x09 ≤ c.toNat ∧ c.toNat ≤ 0x0D) ∨ c.toNat = 0x20 ∨ c.toNat = 0x85 ∨
    c.toNat = 0xA0 ∨ c.toNat = 0x1680 ∨ (0x2000 ≤ c.toNat ∧ c.toNat ≤ 0x200A) ∨
    c.toNat = 0x2028 ∨ c.toNat = 0x2029 ∨ c.toNat = 0x202F ∨ c.toNat = 0x205F ∨
    c.toNat = 0x3000)

/-- Rust `s.trim()`: strip Unicode White_Space from both ends. -/
def trimStr (s : Str) : Str :=
  ((s.dropWhile isRustWhitespace).reverse.dropWhile isRustWhitespace).reverse

/-- `items[i]` as used by the sort comparators; out-of-range indices
yield a default item (the source indexes unconditionally, which is only
reached on valid indices). -/
def itemAt (items : List ObjectItem) (i : Nat) : ObjectItem :=
  items.getD i (ObjectItem.dir [] [] [] [])

/-- Ascending boolean comparator from a key into a linear order.  Rust's
`sort_by(|a, b| k(a).cmp(&k(b)))` sorts so that adjacent elements `a, b`
satisfy `k(a).cmp(&k(b)) != Greater`, i.e. `k a ≤ k b`. -/
def leAsc {β : Type} [LinearOrder β] (f : Nat → β) : Nat → Nat → Bool :=
  fun a b => decide (f a ≤ f b)

/-- Descending boolean comparator: Rust's
`sort_by(|a, b| k(b).cmp(&k(a)))`, i.e. `k b ≤ k a`. -/
def leDesc {β : Type} [LinearOrder β] (f : Nat → β) : Nat → Nat → Bool :=
  fun a b => decide (f b ≤ f a)

/-- Sort key: item name (Rust `String` ordering is lexicographic on
characters). -/
def nameKey (items : List ObjectItem) (i : Nat) : Str :=
  (itemAt items i).name

/-- Sort key: last-modified timestamp; `Option` ordering with
`None < Some` matches `WithBot`. -/
def lmKey (items : List ObjectItem) (i : Nat) : WithBot Int :=
  (itemAt items i).last_modified

/-- Sort key: byte size; `Option` ordering with `None < Some`. -/
def sizeKey (items : List ObjectItem) (i : Nat) : WithBot Nat :=
  (itemAt items i).size_byte

/-- `sort_view_indices`: stable sort of the projection by the currently
selected sort key (Rust `sort`/`sort_by` is a stable merge sort). -/
def sortViewIndices (s : ObjectListPage) : ObjectListPage :=
  match s.sort_dialog_state.selected with
  | .Default =>
      { s with view_indices := s.view_indices.mergeSort (leAsc (fun i => i)) }
  | .NameAsc =>
      { s with view_indices := s.view_indices.mergeSort (leAsc (nameKey s.object_items)) }
  | .NameDesc =>
      { s with view_indices := s.view_indices.mergeSort (leDesc (nameKey s.object_items)) }
  | .LastModifiedAsc =>
      { s with view_indices := s.view_indices.mergeSort (leAsc (lmKey s.object_items)) }
  | .LastModifiedDesc =>
      { s with view_indices := s.view_indices.mergeSort (leDesc (lmKey s.object_items)) }
  | .SizeAsc =>
      { s with view_indices := s.view_indices.mergeSort (leAsc (sizeKey s.object_items)) }
  | .SizeDesc =>
      { s with view_indices := s.view_indices.mergeSort (leDesc (sizeKey s.object_items)) }

/-- `filter_view_indices`: recompute the projection from the master list
and the filter input (enumerate, keep items whose name contains the
filter, keep the indices), reset the list state to a fresh cursor over
the new projection, then re-apply the current sort. -/
def filterViewIndices (s : ObjectListPage) : ObjectListPage :=
  let flt := s.filter_input_state.input
  let vi := ((s.object_items.enum).filter (fun e => containsStr e.2.name flt)).map Prod.fst
  sortViewIndices
    { s with view_indices := vi, list_state := ScrollListState.new vi.length }

-- ### Page operations (src/pages/object_list.rs)

def openFilterDialog (s : ObjectListPage) : ObjectListPage :=
  { s with view_state := .FilterDialog }

/-- `close_filter_dialog`: back to Default, then `reset_filter`. -/
def resetFilter (s : ObjectListPage) : ObjectListPage :=
  filterViewIndices { s with filter_input_state := s.filter_input_state.clear_input }

def closeFilterDialog (s : ObjectListPage) : ObjectListPage :=
  resetFilter { s with view_state := .Default }

def openSortDialog (s : ObjectListPage) : ObjectListPage :=
  { s with view_state := .SortDialog }

/-- `close_sort_dialog`: back to Default, reset the sort selection, then
re-sort. -/
def closeSortDialog (s : ObjectListPage) : ObjectListPage :=
  sortViewIndices
    { s with view_state := .Default, sort_dialog_state := s.sort_dialog_state.reset }

def applyFilter (s : ObjectListPage) : ObjectListPage :=
  filterViewIndices { s with view_state := .Default }

def applySort (s : ObjectListPage) : ObjectListPage :=
  sortViewIndices { s with view_state := .Default }

def selectNextSortItem (s : ObjectListPage) : ObjectListPage :=
  sortViewIndices { s with sort_dialog_state := s.sort_dialog_state.select_next }

def selectPrevSortItem (s : ObjectListPage) : ObjectListPage :=
  sortViewIndices { s with sort_dialog_state := s.sort_dialog_state.select_prev }

/-- `current_selected_item`: the source panics when the selection is out
of range; modelled as `Option` (`none` = panic). -/
def currentSelectedItem (s : ObjectListPage) : Option ObjectItem := do
  let i ← s.view_indices.get? s.list_state.selected
  s.object_items.get? i

/-- `current_selected_object_key`: current directory key extended with
the selected item's name. -/
def currentSelectedObjectKey (s : ObjectListPage) : Option ObjectKey :=
  (currentSelectedItem s).map fun it =>
    ⟨s.object_key.bucket_name, s.object_key.object_path ++ [it.name]⟩

def nonEmpty (s : ObjectListPage) : Bool :=
  !s.view_indices.isEmpty

def openGoToPathDialog (s : ObjectListPage) : ObjectListPage :=
  { s with view_state := .GoToPathDialog ⟨joinedObjectPath s.object_key⟩ }

def openCopyDetailDialog (s : ObjectListPage) : Option ObjectListPage := do
  let it ← currentSelectedItem s
  match it with
  | .dir _ _ _ _ =>
      pure { s with view_state := .CopyDetailDialog (.object_list_dir it) }
  | .file _ _ _ _ _ _ _ _ =>
      pure { s with view_state := .CopyDetailDialog (.object_list_file it) }

def closeCopyDetailDialog (s : ObjectListPage) : ObjectListPage :=
  { s with view_state := .Default }

def openDownloadConfirmDialog (s : ObjectListPage) (objs : List DownloadObjectInfo)
    (download_as : Bool) : ObjectListPage :=
  { s with view_state := .DownloadConfirmDialog objs ConfirmDialogState.default download_as }

def closeDownloadConfirmDialog (s : ObjectListPage) : ObjectListPage :=
  { s with view_state := .Default }

def openPasteConfirmDialog (s : ObjectListPage) (spec : PasteSpec) : ObjectListPage :=
  { s with view_state := .PasteConfirmDialog spec ConfirmDialogState.default }

def closePasteConfirmDialog (s : ObjectListPage) : ObjectListPage :=
  { s with view_state := .Default }

def openSaveDialog (s : ObjectListPage) (objs : Option (List DownloadObjectInfo))
    (name : Str) : ObjectListPage :=
  { s with view_state := .SaveDialog ⟨name⟩ objs }

def closeSaveDialog (s : ObjectListPage) : ObjectListPage :=
  { s with view_state := .Default }

/-- `start_download`: a directory requests enumeration of its
descendants; a file emits a direct download request. -/
def startDownload (s : ObjectListPage) : Option (ObjectListPage × List AppEventType) := do
  let it ← currentSelectedItem s
  match it with
  | .dir _ _ _ _ => do
      let key ← currentSelectedObjectKey s
      pure (s, [.StartLoadAllDownloadObjectList key false])
  | .file name size_byte _ _ _ _ _ _ => do
      let key ← currentSelectedObjectKey s
      pure (s, [.StartDownloadObject key name size_byte none])

/-- `start_download_as`: a directory requests enumeration (download-as
flavour); a file opens the save dialog primed with its name. -/
def startDownloadAs (s : ObjectListPage) : Option (ObjectListPage × List AppEventType) := do
  let it ← currentSelectedItem s
  match it with
  | .dir _ _ _ _ => do
      let key ← currentSelectedObjectKey s
      pure (s, [.StartLoadAllDownloadObjectList key true])
  | .file name _ _ _ _ _ _ _ =>
      pure (openSaveDialog s none name, [])

/-- `download` (confirm of the DownloadConfirmDialog): when the toggle
is "ok", either open the save dialog (download-as) or emit the bulk
download request; in every case the dialog closes.  With the toggle on
"cancel" nothing is emitted. -/
def download (s : ObjectListPage) : Option (ObjectListPage × List AppEventType) :=
  match s.view_state with
  | .DownloadConfirmDialog objs state download_as =>
    if state.is_ok then
      if download_as then do
        let it ← currentSelectedItem s
        pure (openSaveDialog s (some objs) it.name, [])
      else do
        let key ← currentSelectedObjectKey s
        let it ← currentSelectedItem s
        pure (closeDownloadConfirmDialog s,
          [.DownloadObjects s.object_key.bucket_name key it.name objs])
    else pure (closeDownloadConfirmDialog s, [])
  | _ => pure (s, [])

/-- `download_as` (apply of the SaveDialog): empty trimmed input is a
local validation failure (no transition, no event); otherwise emit the
bulk or single download request with the trimmed input as payload and
close the dialog.  The single-object case unwraps the selected item's
size (panic — `none` — for a directory). -/
def downloadAs (s : ObjectListPage) (input : Str) :
    Option (ObjectListPage × List AppEventType) :=
  match s.view_state with
  | .SaveDialog _ objs =>
    let input := trimStr input
    if input = [] then pure (s, [])
    else
      match objs with
      | some os => do
          let key ← currentSelectedObjectKey s
          pure (closeSaveDialog s,
            [.DownloadObjects s.object_key.bucket_name key input os])
      | none => do
          let key ← currentSelectedObjectKey s
          let it ← currentSelectedItem s
          let sz ← it.size_byte
          pure (closeSaveDialog s, [.StartDownloadObjectAs key sz input none])
  | _ => pure (s, [])

/-- `open_management_console`: emits the console request for the current
directory. -/
def openManagementConsole (s : ObjectListPage) : ObjectListPage × List AppEventType :=
  (s, [.ObjectListOpenManagementConsole s.object_key])

/-- `paste` (confirm of the PasteConfirmDialog): with the toggle "ok"
emit the copy request; in every case the dialog closes. -/
def paste (s : ObjectListPage) : Option (ObjectListPage × List AppEventType) :=
  match s.view_state with
  | .PasteConfirmDialog spec state =>
    if state.is_ok then pure (closePasteConfirmDialog s, [.PasteObject spec])
    else pure (closePasteConfirmDialog s, [])
  | _ => pure (s, [])

/-- `handle_key` (src/pages/object_list.rs): dispatch of one abstract
user event in the current view state.  The source receives the vector
of events mapped from one raw key and dispatches through the
`handle_user_events!` macros (macros.rs, not under src/); this models
the handling of a single mapped event: events not in the active state's
table are ignored in strict dialogs and forwarded to the buffer editor
(the `KeyEvent` edit action `k`) in text-entry dialogs.  Returns `none`
when the source would panic (selection out of range). -/
def handleEvent (s : ObjectListPage) (ue : UserEvent) (k : KeyEvent) :
    Option (ObjectListPage × List AppEventType) :=
  match s.view_state with
  | .Default =>
    match ue with
    | .ObjectListSelect =>
        if nonEmpty s then pure (s, [.ObjectListMoveDown]) else pure (s, [])
    | .ObjectListBack => pure (s, [.ObjectListMoveUp])
    | .ObjectListDown =>
        if nonEmpty s then pure ({ s with list_state := s.list_state.select_next }, [])
        else pure (s, [])
    | .ObjectListUp =>
        if nonEmpty s then pure ({ s with list_state := s.list_state.select_prev }, [])
        else pure (s, [])
    | .ObjectListGoToTop =>
        if nonEmpty s then pure ({ s with list_state := s.list_state.select_first }, [])
        else pure (s, [])
    | .ObjectListGoToBottom =>
        if nonEmpty s then pure ({ s with list_state := s.list_state.select_last }, [])
        else pure (s, [])
    | .ObjectListPageDown =>
        if nonEmpty s then pure ({ s with list_state := s.list_state.select_next_page }, [])
        else pure (s, [])
    | .ObjectListPageUp =>
        if nonEmpty s then pure ({ s with list_state := s.list_state.select_prev_page }, [])
        else pure (s, [])
    | .ObjectListRefresh =>
        if nonEmpty s then pure (s, [.ObjectListRefresh]) else pure (s, [])
    | .ObjectListBucketList => pure (s, [.BackToBucketList])
    | .ObjectListManagementConsole =>
        if nonEmpty s then pure (openManagementConsole s) else pure (s, [])
    | .ObjectListFilter => pure (openFilterDialog s, [])
    | .ObjectListSort => pure (openSortDialog s, [])
    | .ObjectListGoToPath => pure (openGoToPathDialog s, [])
    | .ObjectListCopyObject =>
        if nonEmpty s then do
          let key ← currentSelectedObjectKey s
          let it ← currentSelectedItem s
          pure (s, [.CopyObject key it])
        else pure (s, [])
    | .ObjectListPasteObject => pure (s, [.StartPasteObject s.object_key])
    | .ObjectListCopyDetails =>
        if nonEmpty s then (openCopyDetailDialog s).map (fun s' => (s', []))
        else pure (s, [])
    | .ObjectListDownloadObject =>
        if nonEmpty s then startDownload s else pure (s, [])
    | .ObjectListDownloadObjectAs =>
        if nonEmpty s then startDownloadAs s else pure (s, [])
    | .Help => pure (s, [.OpenHelp])
    | .ObjectListResetFilter => pure (resetFilter s, [])
    | _ => pure (s, [])
  | .GoToPathDialog st =>
    match ue with
    | .InputDialogClose => pure ({ s with view_state := .Default }, [])
    | .InputDialogApply =>
        pure ({ s with view_state := .Default },
          [.GoToPath (objectKeyFromPath s.object_key.bucket_name (trimStr st.input))])
    | .Help => pure (s, [.OpenHelp])
    | _ => pure ({ s with view_state := .GoToPathDialog (st.handle_key_event k) }, [])
  | .FilterDialog =>
    match ue with
    | .InputDialogApply => pure (applyFilter s, [])
    | .InputDialogClose => pure (closeFilterDialog s, [])
    | .Help => pure (s, [.OpenHelp])
    | _ =>
        pure (filterViewIndices
          { s with filter_input_state := s.filter_input_state.handle_key_event k }, [])
  | .SortDialog =>
    match ue with
    | .SelectDialogClose => pure (closeSortDialog s, [])
    | .SelectDialogDown => pure (selectNextSortItem s, [])
    | .SelectDialogUp => pure (selectPrevSortItem s, [])
    | .SelectDialogSelect => pure (applySort s, [])
    | .Help => pure (s, [.OpenHelp])
    | _ => pure (s, [])
  | .PasteConfirmDialog spec state =>
    match ue with
    | .SelectDialogClose => pure (closePasteConfirmDialog s, [])
    | .SelectDialogLeft =>
        pure ({ s with view_state := .PasteConfirmDialog spec state.toggle }, [])
    | .SelectDialogRight =>
        pure ({ s with view_state := .PasteConfirmDialog spec state.toggle }, [])
    | .SelectDialogSelect => paste s
    | .Help => pure (s, [.OpenHelp])
    | _ => pure (s, [])
  | .CopyDetailDialog st =>
    match ue with
    | .SelectDialogClose => pure (closeCopyDetailDialog s, [])
    | .SelectDialogDown =>
        pure ({ s with view_state := .CopyDetailDialog st.select_next }, [])
    | .SelectDialogUp =>
        pure ({ s with view_state := .CopyDetailDialog st.select_prev }, [])
    | .SelectDialogSelect =>
        pure (s, [.CopyToClipboard st.selected_name_and_value.1 st.selected_name_and_value.2])
    | .Help => pure (s, [.OpenHelp])
    | _ => pure (s, [])
  | .DownloadConfirmDialog objs state download_as =>
    match ue with
    | .SelectDialogClose => pure (closeDownloadConfirmDialog s, [])
    | .SelectDialogLeft =>
        pure ({ s with view_state := .DownloadConfirmDialog objs state.toggle download_as }, [])
    | .SelectDialogRight =>
        pure ({ s with view_state := .DownloadConfirmDialog objs state.toggle download_as }, [])
    | .SelectDialogSelect => download s
    | .Help => pure (s, [.OpenHelp])
    | _ => pure (s, [])
  | .SaveDialog st objs =>
    match ue with
    | .InputDialogClose => pure (closeSaveDialog s, [])
    | .InputDialogApply => downloadAs s st.input
    | .Help => pure (s, [.OpenHelp])
    | _ => pure ({ s with view_state := .SaveDialog (st.handle_key_event k) objs }, [])

-- ### Claim theorems: text wrapper

/-- C9: for every string `s` and every `max_width`,
`split_by_display_width(s, max_width)` returns a pair `(pre, suf)` such
that `pre ++ suf = s`, the display width of `pre` does not exceed
`max_width`, and `pre` is empty when `max_width = 0`. -/
theorem C9_splitByDisplayWidth_spec (wf : Char → Nat) (s : Str) (maxWidth : Nat) :
    (splitByDisplayWidth wf s maxWidth).1 ++ (splitByDisplayWidth wf s maxWidth).2 = s ∧
    strWidth wf (splitByDisplayWidth wf s maxWidth).1 ≤ maxWidth ∧
    (maxWidth = 0 → (splitByDisplayWidth wf s maxWidth).1 = []) := by
  refine ⟨splitByDisplayWidth_append wf s maxWidth,
    splitByDisplayWidth_width wf s maxWidth, ?_⟩
  intro h
  simp [splitByDisplayWidth, h]

/-- Witness for C9 at concrete inputs. -/
theorem C9_splitByDisplayWidth_spec_witness :
    (splitByDisplayWidth uwWidth "ab".toList 0).1 = [] ∧
    (splitByDisplayWidth uwWidth "abcd".toList 2).1 ++
        (splitByDisplayWidth uwWidth "abcd".toList 2).2 = "abcd".toList :=
  ⟨(C9_splitByDisplayWidth_spec uwWidth "ab".toList 0).2.2 rfl,
    (C9_splitByDisplayWidth_spec uwWidth "abcd".toList 2).1⟩

/-- C1 fails as stated: at width 8 (≥ 1) the wrapper drops the empty
segment of "s3://a//b" so the concatenation differs from the input; at
width 4 the prefixed wrapper flushes the bare "s3://" prefix as a line
of width 5 > 4; at width 1 a width-2 glyph yields a line wider than the
limit. -/
theorem C1_wrap_claim_counterexample :
    (1 ≤ 8 ∧
      (wrapS3PathForDialog uwWidth "s3://a//b".toList 8).flatten ≠ "s3://a//b".toList) ∧
    (1 ≤ 4 ∧
      ∃ l ∈ wrapS3PathForDialog uwWidth "s3://ab".toList 4, 4 < strWidth uwWidth l) ∧
    (1 ≤ 1 ∧
      ∃ l ∈ wrapS3PathForDialog uwWidth "世世".toList 1, 1 < strWidth uwWidth l) := by
  decide

/-- C1 (amended): for every width function, string `s` and
`max_width ≥ 1`: (a) the concatenation of the wrapped lines equals `s`
provided that, when `s` starts with "s3://" and does not already fit,
no '/'-delimited segment after the prefix is empty; (b) no returned
line's display width exceeds `max_width` provided every glyph of `s`
fits within `max_width` and, when `s` starts with "s3://", the display
width of the prefix itself (5 columns) is at most `max_width`. -/
theorem C1_wrapS3PathForDialog_amended (wf : Char → Nat) (s : Str) (maxWidth : Nat)
    (_hm : 1 ≤ maxWidth) :
    ((s3Pfx.isPrefixOf s = true → maxWidth < strWidth wf s →
        ∀ sg ∈ (s.drop s3Pfx.length).splitOn '/', sg ≠ []) →
      (wrapS3PathForDialog wf s maxWidth).flatten = s) ∧
    ((∀ c ∈ s, wf c ≤ maxWidth) →
      (s3Pfx.isPrefixOf s = true → strWidth wf s3Pfx ≤ maxWidth) →
      ∀ l ∈ wrapS3PathForDialog wf s maxWidth, strWidth wf l ≤ maxWidth) := by
  constructor
  · intro hsegs
    unfold wrapS3PathForDialog
    by_cases hfit : strWidth wf s ≤ maxWidth
    · simp [hfit]
    · simp only [hfit, if_neg, ite_false, not_false_eq_true]
      by_cases hpre : s3Pfx.isPrefixOf s = true
      · simp only [hpre, if_pos, ite_true]
        exact wrapPathWithPfx_flatten wf s s3Pfx maxWidth
          (List.isPrefixOf_iff_prefix.mp hpre) (hsegs hpre (by omega))
      · simp only [hpre, if_neg, ite_false, not_false_eq_true]
        exact wrapStrict_flatten wf s maxWidth
  · intro hchars hpfxw
    unfold wrapS3PathForDialog
    by_cases hfit : strWidth wf s ≤ maxWidth
    · simp only [hfit, if_pos, ite_true]
      intro l hl
      simp at hl
      subst hl
      exact hfit
    · simp only [hfit, if_neg, ite_false, not_false_eq_true]
      by_cases hpre : s3Pfx.isPrefixOf s = true
      · simp only [hpre, if_pos, ite_true]
        exact wrapPathWithPfx_width wf s s3Pfx maxWidth
          (List.isPrefixOf_iff_prefix.mp hpre) hchars (hpfxw hpre)
      · simp only [hpre, if_neg, ite_false, not_false_eq_true]
        exact wrapStrict_width wf s maxWidth hchars

/-- Witness for the amended C1 at a concrete input. -/
theorem C1_wrapS3PathForDialog_amended_witness :
    (wrapS3PathForDialog uwWidth "s3://abc/defg".toList 6).flatten
        = "s3://abc/defg".toList ∧
    ∀ l ∈ wrapS3PathForDialog uwWidth "s3://abc/defg".toList 6, strWidth uwWidth l ≤ 6 := by
  constructor
  · exact (C1_wrapS3PathForDialog_amended uwWidth "s3://abc/defg".toList 6 (by decide)).1
      (by decide)
  · exact (C1_wrapS3PathForDialog_amended uwWidth "s3://abc/defg".toList 6 (by decide)).2
      (by decide) (by decide)

-- ### Properties of the projection engine

theorem leAsc_trans {β : Type} [LinearOrder β] (f : Nat → β) :
    ∀ a b c, leAsc f a b = true → leAsc f b c = true → leAsc f a c = true := by
  intro a b c hab hbc
  simp only [leAsc, decide_eq_true_eq] at *
  exact le_trans hab hbc

theorem leAsc_total {β : Type} [LinearOrder β] (f : Nat → β) :
    ∀ a b, (leAsc f a b || leAsc f b a) = true := by
  intro a b
  simp only [leAsc, Bool.or_eq_true, decide_eq_true_eq]
  exact le_total _ _

theorem leDesc_trans {β : Type} [LinearOrder β] (f : Nat → β) :
    ∀ a b c, leDesc f a b = true → leDesc f b c = true → leDesc f a c = true := by
  intro a b c hab hbc
  simp only [leDesc, decide_eq_true_eq] at *
  exact le_trans hbc hab

theorem leDesc_total {β : Type} [LinearOrder β] (f : Nat → β) :
    ∀ a b, (leDesc f a b || leDesc f b a) = true := by
  intro a b
  simp only [leDesc, Bool.or_eq_true, decide_eq_true_eq]
  exact le_total _ _

/-- The comparator selected by each of the seven sort keys. -/
def sortLeOf (items : List ObjectItem) : ObjectListSortType → (Nat → Nat → Bool)
  | .Default => leAsc (fun i => i)
  | .NameAsc => leAsc (nameKey items)
  | .NameDesc => leDesc (nameKey items)
  | .LastModifiedAsc => leAsc (lmKey items)
  | .LastModifiedDesc => leDesc (lmKey items)
  | .SizeAsc => leAsc (sizeKey items)
  | .SizeDesc => leDesc (sizeKey items)

theorem sortLeOf_trans (items : List ObjectItem) (t : ObjectListSortType) :
    ∀ a b c, sortLeOf items t a b = true → sortLeOf items t b c = true →
      sortLeOf items t a c = true := by
  cases t <;> simp only [sortLeOf] <;>
    first
      | exact leAsc_trans _
      | exact leDesc_trans _

theorem sortLeOf_total (items : List ObjectItem) (t : ObjectListSortType) :
    ∀ a b, (sortLeOf items t a b || sortLeOf items t b a) = true := by
  cases t <;> simp only [sortLeOf] <;>
    first
      | exact leAsc_total _
      | exact leDesc_total _

theorem sortViewIndices_view_indices (s : ObjectListPage) :
    (sortViewIndices s).view_indices =
      s.view_indices.mergeSort (sortLeOf s.object_items s.sort_dialog_state.selected) := by
  unfold sortViewIndices
  rcases h : s.sort_dialog_state.selected <;> simp [sortLeOf]

theorem sortViewIndices_object_items (s : ObjectListPage) :
    (sortViewIndices s).object_items = s.object_items := by
  unfold sortViewIndices
  rcases h : s.sort_dialog_state.selected <;> simp

theorem sortViewIndices_object_key (s : ObjectListPage) :
    (sortViewIndices s).object_key = s.object_key := by
  unfold sortViewIndices
  rcases h : s.sort_dialog_state.selected <;> simp

theorem sortViewIndices_view_state (s : ObjectListPage) :
    (sortViewIndices s).view_state = s.view_state := by
  unfold sortViewIndices
  rcases h : s.sort_dialog_state.selected <;> simp

theorem sortViewIndices_list_state (s : ObjectListPage) :
    (sortViewIndices s).list_state = s.list_state := by
  unfold sortViewIndices
  rcases h : s.sort_dialog_state.selected <;> simp

theorem sortViewIndices_filter_input_state (s : ObjectListPage) :
    (sortViewIndices s).filter_input_state = s.filter_input_state := by
  unfold sortViewIndices
  rcases h : s.sort_dialog_state.selected <;> simp

theorem sortViewIndices_sort_dialog_state (s : ObjectListPage) :
    (sortViewIndices s).sort_dialog_state = s.sort_dialog_state := by
  unfold sortViewIndices
  rcases h : s.sort_dialog_state.selected <;> simp

theorem sortViewIndices_perm (s : ObjectListPage) :
    (sortViewIndices s).view_indices.Perm s.view_indices := by
  rw [sortViewIndices_view_indices]
  exact List.mergeSort_perm _ _

/-- The indices produced by the filter scan of `filter_view_indices`. -/
def filteredIndices (items : List ObjectItem) (flt : Str) : List Nat :=
  ((items.enum).filter (fun e => containsStr e.2.name flt)).map Prod.fst

theorem filterViewIndices_view_indices (s : ObjectListPage) :
    (filterViewIndices s).view_indices =
      (filteredIndices s.object_items s.filter_input_state.input).mergeSort
        (sortLeOf s.object_items s.sort_dialog_state.selected) := by
  simp only [filterViewIndices]
  rw [sortViewIndices_view_indices]
  rfl

theorem filterViewIndices_list_state (s : ObjectListPage) :
    (filterViewIndices s).list_state =
      ScrollListState.new (filteredIndices s.object_items s.filter_input_state.input).length := by
  simp only [filterViewIndices]
  rw [sortViewIndices_list_state]
  rfl

theorem mem_filteredIndices (items : List ObjectItem) (flt : Str) (i : Nat) :
    i ∈ filteredIndices items flt ↔
      ∃ it, items[i]? = some it ∧ containsStr it.name flt = true := by
  simp only [filteredIndices, List.mem_map, List.mem_filter, List.mem_enum_iff_getElem?]
  constructor
  · rintro ⟨⟨j, it⟩, ⟨hj, hp⟩, rfl⟩
    exact ⟨it, hj, hp⟩
  · rintro ⟨it, hi, hp⟩
    exact ⟨(i, it), ⟨hi, hp⟩, rfl⟩

theorem filteredIndices_nodup (items : List ObjectItem) (flt : Str) :
    (filteredIndices items flt).Nodup := by
  have hsub : (filteredIndices items flt).Sublist ((items.enum).map Prod.fst) :=
    (List.filter_sublist _).map _
  rw [List.enum_map_fst] at hsub
  exact List.Nodup.sublist hsub (List.nodup_range _)

-- ### Claim theorems: projection engine

/-- C2: after `filter_view_indices` runs, `view_indices` contains
exactly the indices `i` such that `item[i].name` contains the filter
substring (case-sensitively), each appearing exactly once and no other
index appearing. -/
theorem C2_filterViewIndices_membership (s : ObjectListPage) :
    (∀ i : Nat,
        i ∈ (filterViewIndices s).view_indices ↔
          ∃ it, s.object_items[i]? = some it ∧
            containsStr it.name s.filter_input_state.input = true) ∧
      (filterViewIndices s).view_indices.Nodup := by
  constructor
  · intro i
    rw [filterViewIndices_view_indices,
      (List.mergeSort_perm _ _).mem_iff, mem_filteredIndices]
  · rw [filterViewIndices_view_indices]
    exact ((List.mergeSort_perm _ _).nodup_iff).mpr (filteredIndices_nodup _ _)

/-- C3: every one of the seven sort keys permutes `view_indices`
without adding or removing indices (the multiset is unchanged), and
`filter_view_indices` re-applies the currently selected sort to the
freshly filtered indices. -/
theorem C3_sort_permutes_and_filter_resorts (s : ObjectListPage) :
    ((sortViewIndices s).view_indices : Multiset Nat) = (s.view_indices : Multiset Nat) ∧
      (filterViewIndices s).view_indices =
        (filteredIndices s.object_items s.filter_input_state.input).mergeSort
          (sortLeOf s.object_items s.sort_dialog_state.selected) :=
  ⟨Multiset.coe_eq_coe.mpr (sortViewIndices_perm s), filterViewIndices_view_indices s⟩

/-- C4: any run of `filter_view_indices` resets the cursor to
selected = 0 and offset = 0, while the sort-only operations
(`select_next_sort_item`, `select_prev_sort_item`, `apply_sort`,
`close_sort_dialog`) never touch the cursor. -/
theorem C4_filter_resets_cursor_sort_preserves (s : ObjectListPage) :
    (filterViewIndices s).list_state.selected = 0 ∧
    (filterViewIndices s).list_state.offset = 0 ∧
    (selectNextSortItem s).list_state = s.list_state ∧
    (selectPrevSortItem s).list_state = s.list_state ∧
    (applySort s).list_state = s.list_state ∧
    (closeSortDialog s).list_state = s.list_state := by
  refine ⟨?_, ?_, ?_, ?_, ?_, ?_⟩
  · rw [filterViewIndices_list_state]; rfl
  · rw [filterViewIndices_list_state]; rfl
  · unfold selectNextSortItem
    rw [sortViewIndices_list_state]
  · unfold selectPrevSortItem
    rw [sortViewIndices_list_state]
  · unfold applySort
    rw [sortViewIndices_list_state]
  · unfold closeSortDialog
    rw [sortViewIndices_list_state]

/-- C5: sorting is idempotent — applying `sort_view_indices` twice with
the same selected key yields the same `view_indices` as applying it
once. -/
theorem C5_sort_idempotent (s : ObjectListPage) :
    (sortViewIndices (sortViewIndices s)).view_indices = (sortViewIndices s).view_indices := by
  rw [sortViewIndices_view_indices (sortViewIndices s), sortViewIndices_object_items,
    sortViewIndices_sort_dialog_state, sortViewIndices_view_indices s]
  exact List.mergeSort_of_sorted
    (List.sorted_mergeSort
      (sortLeOf_trans s.object_items s.sort_dialog_state.selected)
      (sortLeOf_total s.object_items s.sort_dialog_state.selected)
      s.view_indices)

-- ### Properties of the view-state machine

theorem filterViewIndices_view_state (s : ObjectListPage) :
    (filterViewIndices s).view_state = s.view_state := by
  simp only [filterViewIndices]
  rw [sortViewIndices_view_state]

theorem filterViewIndices_filter_input_state (s : ObjectListPage) :
    (filterViewIndices s).filter_input_state = s.filter_input_state := by
  simp only [filterViewIndices]
  rw [sortViewIndices_filter_input_state]

theorem mem_filteredIndices_empty (items : List ObjectItem) (i : Nat) :
    i ∈ filteredIndices items [] ↔ i < items.length := by
  rw [mem_filteredIndices]
  constructor
  · rintro ⟨it, h, _⟩
    exact (List.getElem?_eq_some.mp h).1
  · intro h
    refine ⟨items[i], List.getElem?_eq_getElem h, ?_⟩
    simp only [containsStr, decide_eq_true_eq]
    exact List.nil_infix

/-- C6: confirming a `DownloadConfirmDialog` or a `PasteConfirmDialog`
while the toggle is in the "cancel" (not ok) position closes the dialog
(view state returns to Default) and emits no download or copy request
event. -/
theorem C6_confirm_cancel_no_request (s : ObjectListPage) (objs : List DownloadObjectInfo)
    (da : Bool) (spec : PasteSpec) (k : KeyEvent) :
    handleEvent { s with view_state := .DownloadConfirmDialog objs ⟨false⟩ da }
        .SelectDialogSelect k
      = some ({ s with view_state := .Default }, []) ∧
    handleEvent { s with view_state := .PasteConfirmDialog spec ⟨false⟩ }
        .SelectDialogSelect k
      = some ({ s with view_state := .Default }, []) :=
  ⟨rfl, rfl⟩

/-- C7: a close event from any dialog state restores Default, and
closing the FilterDialog additionally clears the filter input and
restores the full (unfiltered) projection. -/
theorem C7_close_restores_default (s : ObjectListPage) (k : KeyEvent)
    (ist : InputDialogState) (cst : CopyDetailDialogState)
    (objs : List DownloadObjectInfo) (cds : ConfirmDialogState) (da : Bool)
    (spec : PasteSpec) (sis : InputDialogState) (sobjs : Option (List DownloadObjectInfo)) :
    handleEvent { s with view_state := .GoToPathDialog ist } .InputDialogClose k
        = some ({ s with view_state := .Default }, []) ∧
    (handleEvent { s with view_state := .FilterDialog } .InputDialogClose k
        = some (closeFilterDialog { s with view_state := .FilterDialog }, []) ∧
      (closeFilterDialog { s with view_state := .FilterDialog }).view_state = .Default ∧
      (closeFilterDialog { s with view_state := .FilterDialog }).filter_input_state.input
          = [] ∧
      ∀ i : Nat,
        i ∈ (closeFilterDialog { s with view_state := .FilterDialog }).view_indices ↔
          i < s.object_items.length) ∧
    (handleEvent { s with view_state := .SortDialog } .SelectDialogClose k
        = some (closeSortDialog { s with view_state := .SortDialog }, []) ∧
      (closeSortDialog { s with view_state := .SortDialog }).view_state = .Default) ∧
    handleEvent { s with view_state := .CopyDetailDialog cst } .SelectDialogClose k
        = some ({ s with view_state := .Default }, []) ∧
    handleEvent { s with view_state := .DownloadConfirmDialog objs cds da }
        .SelectDialogClose k
        = some ({ s with view_state := .Default }, []) ∧
    handleEvent { s with view_state := .PasteConfirmDialog spec cds } .SelectDialogClose k
        = some ({ s with view_state := .Default }, []) ∧
    handleEvent { s with view_state := .SaveDialog sis sobjs } .InputDialogClose k
        = some ({ s with view_state := .Default }, []) := by
  refine ⟨rfl, ⟨rfl, ?_, ?_, ?_⟩, ⟨rfl, ?_⟩, rfl, rfl, rfl, rfl⟩
  · unfold closeFilterDialog resetFilter
    rw [filterViewIndices_view_state]
  · unfold closeFilterDialog resetFilter
    rw [filterViewIndices_filter_input_state]
    rfl
  · intro i
    unfold closeFilterDialog resetFilter
    rw [filterViewIndices_view_indices, (List.mergeSort_perm _ _).mem_iff]
    exact mem_filteredIndices_empty _ i
  · unfold closeSortDialog
    rw [sortViewIndices_view_state]

theorem downloadAs_eq (s : ObjectListPage) (st : InputDialogState)
    (objs : Option (List DownloadObjectInfo)) (input : Str) :
    downloadAs { s with view_state := .SaveDialog st objs } input =
      (if trimStr input = [] then
        pure ({ s with view_state := .SaveDialog st objs }, [])
      else
        match objs with
        | some os => do
            let key ← currentSelectedObjectKey { s with view_state := .SaveDialog st objs }
            pure (closeSaveDialog { s with view_state := .SaveDialog st objs },
              [.DownloadObjects s.object_key.bucket_name key (trimStr input) os])
        | none => do
            let key ← currentSelectedObjectKey { s with view_state := .SaveDialog st objs }
            let it ← currentSelectedItem { s with view_state := .SaveDialog st objs }
            let sz ← it.size_byte
            pure (closeSaveDialog { s with view_state := .SaveDialog st objs },
              [.StartDownloadObjectAs key sz (trimStr input) none])) := rfl

/-- C8: applying the SaveDialog with an input whose trimmed content is
empty is a local validation failure (state unchanged, nothing emitted);
with non-empty trimmed content the trimmed input is the committed
payload of the emitted download request and the view returns to
Default. -/
theorem C8_save_dialog_apply (s : ObjectListPage) (ist : InputDialogState)
    (objs : Option (List DownloadObjectInfo)) (k : KeyEvent) :
    (trimStr ist.input = [] →
      handleEvent { s with view_state := .SaveDialog ist objs } .InputDialogApply k
        = some ({ s with view_state := .SaveDialog ist objs }, [])) ∧
    (∀ os it, objs = some os → trimStr ist.input ≠ [] →
      currentSelectedItem s = some it →
      handleEvent { s with view_state := .SaveDialog ist objs } .InputDialogApply k
        = some ({ s with view_state := .Default },
            [.DownloadObjects s.object_key.bucket_name
              ⟨s.object_key.bucket_name, s.object_key.object_path ++ [it.name]⟩
              (trimStr ist.input) os])) ∧
    (∀ it n, objs = none → trimStr ist.input ≠ [] →
      currentSelectedItem s = some it → it.size_byte = some n →
      handleEvent { s with view_state := .SaveDialog ist objs } .InputDialogApply k
        = some ({ s with view_state := .Default },
            [.StartDownloadObjectAs
              ⟨s.object_key.bucket_name, s.object_key.object_path ++ [it.name]⟩
              n (trimStr ist.input) none])) := by
  refine ⟨?_, ?_, ?_⟩
  · intro h
    have h0 : handleEvent { s with view_state := .SaveDialog ist objs } .InputDialogApply k
        = downloadAs { s with view_state := .SaveDialog ist objs } ist.input := rfl
    rw [h0, downloadAs_eq, if_pos h]
    rfl
  · intro os it hobjs hne hsel
    subst hobjs
    have hsel' : currentSelectedItem { s with view_state := .SaveDialog ist (some os) }
        = some it := hsel
    have h0 : handleEvent { s with view_state := .SaveDialog ist (some os) }
          .InputDialogApply k
        = downloadAs { s with view_state := .SaveDialog ist (some os) } ist.input := rfl
    rw [h0, downloadAs_eq, if_neg hne]
    simp [currentSelectedObjectKey, hsel', closeSaveDialog]
  · intro it n hobjs hne hsel hsz
    subst hobjs
    have hsel' : currentSelectedItem { s with view_state := .SaveDialog ist none }
        = some it := hsel
    have h0 : handleEvent { s with view_state := .SaveDialog ist none } .InputDialogApply k
        = downloadAs { s with view_state := .SaveDialog ist none } ist.input := rfl
    rw [h0, downloadAs_eq, if_neg hne]
    simp [currentSelectedObjectKey, hsel', hsz, closeSaveDialog]

/-- Concrete page used to witness the SaveDialog claim: one file named
"f" of 7 bytes, selected. -/
def witPage : ObjectListPage :=
  { object_items := [ObjectItem.file ['f'] 7 0 [] [] [] [] []]
    object_key := ⟨['b'], []⟩
    view_indices := [0]
    view_state := .Default
    list_state := ⟨0, 0, 1, 0⟩
    filter_input_state := ⟨[]⟩
    sort_dialog_state := ⟨.Default⟩ }

/-- Witness for C8 at concrete inputs: an input of blanks (a space and
a no-break space, both Unicode White_Space) re-prompts, a non-blank
input commits the trimmed payload for both the bulk and the
single-object flavour. -/
theorem C8_save_dialog_apply_witness :
    handleEvent { witPage with view_state := .SaveDialog ⟨[' ', '\u00A0']⟩ none }
        .InputDialogApply id
        = some ({ witPage with view_state := .SaveDialog ⟨[' ', '\u00A0']⟩ none }, []) ∧
    handleEvent { witPage with view_state := .SaveDialog ⟨['x']⟩ (some []) }
        .InputDialogApply id
        = some ({ witPage with view_state := .Default },
            [.DownloadObjects ['b'] ⟨['b'], [['f']]⟩ ['x'] []]) ∧
    handleEvent { witPage with view_state := .SaveDialog ⟨['x']⟩ none } .InputDialogApply id
        = some ({ witPage with view_state := .Default },
            [.StartDownloadObjectAs ⟨['b'], [['f']]⟩ 7 ['x'] none]) :=
  ⟨(C8_save_dialog_apply witPage ⟨[' ', '\u00A0']⟩ none id).1 (by decide),
    (C8_save_dialog_apply witPage ⟨['x']⟩ (some []) id).2.1 []
      (ObjectItem.file ['f'] 7 0 [] [] [] [] []) rfl (by decide) rfl,
    (C8_save_dialog_apply witPage ⟨['x']⟩ none id).2.2
      (ObjectItem.file ['f'] 7 0 [] [] [] [] []) 7 rfl (by decide) rfl rfl⟩

/-- The page in the Default view state with an empty projection. -/
def emptyProjection (s : ObjectListPage) : ObjectListPage :=
  { s with view_state := .Default, view_indices := [] }

/-- C10: with an empty projection, every selection-dependent event in
the Default view state is a no-op: the state is unchanged, nothing is
emitted, and the out-of-range panic of `current_selected_item` is never
reached (the result is `some`, not the panic `none`). -/
theorem C10_empty_projection_noop (s : ObjectListPage) (k : KeyEvent) :
    handleEvent (emptyProjection s) .ObjectListSelect k = some (emptyProjection s, []) ∧
    handleEvent (emptyProjection s) .ObjectListDown k = some (emptyProjection s, []) ∧
    handleEvent (emptyProjection s) .ObjectListUp k = some (emptyProjection s, []) ∧
    handleEvent (emptyProjection s) .ObjectListGoToTop k = some (emptyProjection s, []) ∧
    handleEvent (emptyProjection s) .ObjectListGoToBottom k = some (emptyProjection s, []) ∧
    handleEvent (emptyProjection s) .ObjectListPageDown k = some (emptyProjection s, []) ∧
    handleEvent (emptyProjection s) .ObjectListPageUp k = some (emptyProjection s, []) ∧
    handleEvent (emptyProjection s) .ObjectListRefresh k = some (emptyProjection s, []) ∧
    handleEvent (emptyProjection s) .ObjectListManagementConsole k
      = some (emptyProjection s, []) ∧
    handleEvent (emptyProjection s) .ObjectListCopyObject k = some (emptyProjection s, []) ∧
    handleEvent (emptyProjection s) .ObjectListCopyDetails k = some (emptyProjection s, []) ∧
    handleEvent (emptyProjection s) .ObjectListDownloadObject k
      = some (emptyProjection s, []) ∧
    handleEvent (emptyProjection s) .ObjectListDownloadObjectAs k
      = some (emptyProjection s, []) :=
  ⟨rfl, rfl, rfl, rfl, rfl, rfl, rfl, rfl, rfl, rfl, rfl, rfl, rfl⟩
